import Mathlib

/-
  Verification development for the Face_Balance repository
  (src/src/components/FaceCanvas.tsx, the active component starting at the
  second `// src/components/FaceCanvas.tsx` header).

  The component is embedded shallowly:
  * numeric values are rationals (the source arithmetic is closed-form
    field arithmetic over JS numbers; the one square root in the source,
    Math.hypot, is handled by comparing squared distances or by
    parametrising over the length function, as noted at each definition);
  * the landmark mesh is a list of optional landmarks: an entry none
    models both an index beyond the array length and a hole / non-numeric
    entry (the source guards both with the same falsiness checks);
  * nanoid() is modelled by a natural-number counter threaded through the
    operations: each call returns the current counter value and bumps it,
    which realises the assumption that every call yields an identifier
    distinct from all previously generated ones;
  * React state updates (setLandmarks, setPoints, setDetector) become
    explicit state passing on an FState record.
-/

set_option maxHeartbeats 1000000

namespace FaceBalance

/-- A detected facial landmark: source type Landmark = [number, number, number?]. -/
structure Landmark where
  x : ℚ
  y : ℚ
  z : Option ℚ
deriving DecidableEq

/-- A 2-D point, as produced by indicesToXY and consumed by the overlay math. -/
structure Pt where
  x : ℚ
  y : ℚ
deriving DecidableEq

/-- A user annotation marker: source type AnnotationPoint
    { id: string; x: number; y: number; product?: string; dose?: string }.
    Identifiers are the naturals produced by the nanoid counter model. -/
structure AnnotationPoint where
  id : ℕ
  x : ℚ
  y : ℚ
  product : Option String
  dose : Option String
deriving DecidableEq

/-- The landmark mesh state. An entry none models an absent landmark
    (out-of-bounds index or hole); reading any index is getLm below. -/
abbrev Mesh := List (Option Landmark)

/-- Array read landmarks[i] of the source: out-of-bounds and holes both
    give a falsy value, modelled as none. -/
def getLm (l : Mesh) (i : ℕ) : Option Landmark :=
  l.getD i none

/-- JS Math.round on the (nonnegative) values the source feeds it:
    round half away from zero, which for x greater than or equal to 0 is
    the floor of x + 1/2. -/
def jsRound (q : ℚ) : ℤ :=
  ⌊q + 1 / 2⌋

/-- Source fitImage (FaceCanvas.tsx): aspect-fit an imageWidth x imageHeight
    image into a stageW x stageH stage; the scaled coordinate is rounded
    with Math.round. -/
def fitImage (imageWidth imageHeight stageW stageH : ℚ) : ℚ × ℚ :=
  let imgRatio := imageWidth / imageHeight
  let stageRatio := stageW / stageH
  if stageRatio < imgRatio then
    (stageW, (jsRound (stageW / imgRatio) : ℚ))
  else
    ((jsRound (stageH * imgRatio) : ℚ), stageH)

/-- The element loop of source indicesToXY: walk the index list and return
    null as soon as a referenced landmark is absent, else collect the
    x-y pairs in order. (The source guard `!lm || typeof lm[0] !== "number"`
    is the none case: a present landmark always has numeric coordinates.) -/
def collectXY (l : Mesh) : List ℕ → Option (List Pt)
  | [] => some []
  | i :: is =>
    match getLm l i with
    | none => none
    | some lm =>
      match collectXY l is with
      | none => none
      | some rest => some (⟨lm.x, lm.y⟩ :: rest)

/-- Source indicesToXY: convert indices to [x,y] points, null if the mesh is
    empty or any referenced landmark is missing. -/
def indicesToXY (indices : List ℕ) (l : Mesh) : Option (List Pt) :=
  if l = [] then none else collectXY l indices

/-- The present landmarks of a mesh, in order (entries the source loops
    skip with `if (!lm) continue`). -/
def presentLms (l : Mesh) : List Landmark :=
  l.filterMap (fun o => o)

/-- The min/max fold of the source bounding-box loops, started from a first
    present landmark. Result is (minX, maxX, minY, maxY). -/
def bboxLoop : List Landmark → ℚ × ℚ × ℚ × ℚ → ℚ × ℚ × ℚ × ℚ
  | [], acc => acc
  | lm :: rest, (mnX, mxX, mnY, mxY) =>
    bboxLoop rest (min mnX lm.x, max mxX lm.x, min mnY lm.y, max mxY lm.y)

/-- Bounding box of the present landmarks: the source folds min/max from
    plus/minus Infinity over the present entries, which equals folding from
    the first present entry. When no entry is present the source is left
    with non-finite bounds (Infinity / NaN coordinates downstream), which
    have no rational value; that degenerate case is modelled as none. -/
def bboxOf (l : Mesh) : Option (ℚ × ℚ × ℚ × ℚ) :=
  match presentLms l with
  | [] => none
  | lm :: rest => some (bboxLoop rest (lm.x, lm.x, lm.y, lm.y))

/-- The fallback arm of source midlineEndpoints: null on an empty mesh, else
    a vertical line through the bounding-box x-centre. -/
def midlineFallback (l : Mesh) : Option (Pt × Pt) :=
  if l = [] then none
  else
    match bboxOf l with
    | none => none
    | some (mnX, mxX, mnY, mxY) =>
      let cx := (mnX + mxX) / 2
      some (⟨cx, mnY⟩, ⟨cx, mxY⟩)

/-- Source midlineEndpoints: landmarks 10 and 152 when the mesh is long
    enough and both are present, otherwise the bounding-box fallback. -/
def midlineEndpoints (l : Mesh) : Option (Pt × Pt) :=
  if 152 < l.length then
    match getLm l 10, getLm l 152 with
    | some a, some b => some (⟨a.x, a.y⟩, ⟨b.x, b.y⟩)
    | _, _ => midlineFallback l
  else midlineFallback l

/-- Source eyeLine: landmarks 33 and 263 when the mesh is long enough and
    both are present, otherwise null. -/
def eyeLine (l : Mesh) : Option (Pt × Pt) :=
  if 263 < l.length then
    match getLm l 33, getLm l 263 with
    | some a, some b => some (⟨a.x, a.y⟩, ⟨b.x, b.y⟩)
    | _, _ => none
  else none

/-- Result of source thirdsYs: the two horizontal third lines and the x
    extent they are drawn over. -/
structure Thirds where
  y1 : ℚ
  y2 : ℚ
  xmin : ℚ
  xmax : ℚ
deriving DecidableEq

/-- Source thirdsYs: null on an empty mesh or a non-positive (or non-finite)
    face height, else the two third lines of the bounding box. -/
def thirdsYs (l : Mesh) : Option Thirds :=
  if l = [] then none
  else
    match bboxOf l with
    | none => none
    | some (mnX, mxX, mnY, mxY) =>
      let h := mxY - mnY
      if h ≤ 0 then none
      else some ⟨mnY + h / 3, mnY + 2 * h / 3, mnX, mxX⟩

/-- A source muscle definition: boundary and optional centerline index
    tables plus presentation data. -/
structure MuscleDef where
  mid : String
  label : String
  boundary : List ℕ
  centerline : Option (List ℕ)
  color : String
deriving DecidableEq

/-- The source muscleDefs table. -/
def muscleDefs : List MuscleDef :=
  [ ⟨"orbicularis_oris", "Orbicularis Oris",
      [61, 146, 91, 181, 84, 17, 314, 405, 321, 375, 291, 61],
      some [13, 78, 14], "#b4006a"⟩,
    ⟨"zygomaticus_major_l", "Zygomaticus Major (L)",
      [61, 226, 354, 334, 293], some [61, 226, 345], "#9b2a8a"⟩,
    ⟨"zygomaticus_major_r", "Zygomaticus Major (R)",
      [291, 446, 323, 361, 291], some [291, 446, 323], "#9b2a8a"⟩,
    ⟨"mentalis", "Mentalis",
      [152, 148, 176, 149, 150, 152], some [152, 148, 176], "#7f2266"⟩ ]

/-- A muscle prepared for rendering: definition plus resolved boundary
    points and optional resolved centerline points. -/
structure MuscleRender where
  md : MuscleDef
  boundaryPts : List Pt
  centerPts : Option (List Pt)
deriving DecidableEq

/-- Source musclesToRender: resolve each muscle boundary through
    indicesToXY, dropping muscles whose boundary fails to resolve; the
    centerline is resolved when declared (and may itself be null). -/
def musclesToRender (l : Mesh) : List MuscleRender :=
  muscleDefs.filterMap (fun m =>
    (indicesToXY m.boundary l).map (fun bpts =>
      ⟨m, bpts, m.centerline.bind (fun c => indicesToXY c l)⟩))

/-- The fiber-stroke base polyline of the muscle render block:
    `const fiberBasePts = centerPts ? centerPts : m.boundaryPts`. -/
def fiberBasePts (r : MuscleRender) : List Pt :=
  match r.centerPts with
  | some c => c
  | none => r.boundaryPts

/-- A source vessel definition. -/
structure VesselDef where
  vid : String
  label : String
  indices : List ℕ
deriving DecidableEq

/-- The source vesselDefs table. -/
def vesselDefs : List VesselDef :=
  [ ⟨"facial_artery_l", "Facial artery (L)", [234, 93, 132, 58, 0, 1, 2]⟩,
    ⟨"facial_artery_r", "Facial artery (R)", [454, 323, 361, 288, 267, 266, 265]⟩,
    ⟨"angular_l", "Angular (L)", [2, 98, 4, 5]⟩,
    ⟨"angular_r", "Angular (R)", [265, 362, 257, 256]⟩,
    ⟨"sup_labial", "Superior labial", [61, 62, 63, 64, 65, 66]⟩,
    ⟨"inf_labial", "Inferior labial", [291, 292, 293, 294, 295, 296]⟩ ]

/-- Source vesselShapes: resolve each vessel path through indicesToXY,
    dropping vessels whose path fails to resolve. -/
def vesselShapes (l : Mesh) : List (VesselDef × List Pt) :=
  vesselDefs.filterMap (fun v =>
    (indicesToXY v.indices l).map (fun pts => (v, pts)))

/-- A fiber sample of source samplesAlong: position plus unit normal of the
    segment it was sampled from. -/
structure Sample where
  x : ℚ
  y : ℚ
  nx : ℚ
  ny : ℚ
deriving DecidableEq

/-- The while loop of source samplesAlong that locates the segment holding
    arc position t: starting from (accum, segIdx), consume segment lengths
    while accum + segLens[segIdx] < t. Returns (segIdx, accum) at exit. -/
def walk (t : ℚ) : List ℚ → ℚ → ℕ → ℕ × ℚ
  | [], accum, idx => (idx, accum)
  | len :: lens, accum, idx =>
    if accum + len < t then walk t lens (accum + len) (idx + 1) else (idx, accum)

/-- The body of the sampling loop of source samplesAlong, for sample s of n.
    segLens and total are the precomputed segment lengths and their sum;
    len is the segment-length function (Math.hypot in the source; it is a
    parameter here because hypot is real-valued, and every property proved
    below holds for any choice). Mirrors the source including the segIdx
    clamp and the `|| 1` guards. -/
def sampleAt (len : Pt → Pt → ℚ) (pts : List Pt) (segLens : List ℚ)
    (total : ℚ) (n s : ℕ) : Sample :=
  let t := ((s : ℚ) + 1 / 2) / (n : ℚ) * total
  let w := walk t segLens 0 0
  let segIdx := if segLens.length ≤ w.1 then segLens.length - 1 else w.1
  let accum := w.2
  let a := pts.getD segIdx ⟨0, 0⟩
  let b := pts.getD (segIdx + 1) ⟨0, 0⟩
  let sl := segLens.getD segIdx 0
  let localT := (t - accum) / (if sl = 0 then 1 else sl)
  let vx := b.x - a.x
  let vy := b.y - a.y
  let sl2 := len a b
  let nlen := if sl2 = 0 then 1 else sl2
  ⟨a.x + vx * localT, a.y + vy * localT, -vy / nlen, vx / nlen⟩

/-- Source samplesAlong: empty for degenerate polylines, otherwise n samples
    at arc positions (s + 0.5) / n of the total length. The segment-length
    function len stands for Math.hypot (see sampleAt). -/
def samplesAlong (len : Pt → Pt → ℚ) (pts : List Pt) (n : ℕ) : List Sample :=
  if pts.length < 2 then []
  else
    let segLens := List.zipWith len pts pts.tail
    let total := segLens.sum
    if total = 0 then []
    else (List.range n).map (fun s => sampleAt len pts segLens total n s)

/-- A Partial update of an annotation point, the argument type of source
    updatePointMeta: a field is changed exactly when the corresponding key
    is present. (Callers pass numbers for x/y and strings for
    product/dose, as modelled.) -/
structure PointUpdate where
  x : Option ℚ
  y : Option ℚ
  product : Option String
  dose : Option String
deriving DecidableEq

/-- The object spread { ...pt, ...data } of source updatePointMeta: fields
    present in the update override, everything else (including id) is kept. -/
def applyUpdate (pt : AnnotationPoint) (data : PointUpdate) : AnnotationPoint :=
  { id := pt.id
    x := data.x.getD pt.x
    y := data.y.getD pt.y
    product := match data.product with
               | some s => some s
               | none => pt.product
    dose := match data.dose with
            | some s => some s
            | none => pt.dose }

/-- Source updatePointMeta: map over the list, spreading the update into
    the point(s) whose id matches. -/
def updatePointMeta (pid : ℕ) (data : PointUpdate)
    (prev : List AnnotationPoint) : List AnnotationPoint :=
  prev.map (fun pt => if pt.id = pid then applyUpdate pt data else pt)

/-- Squared distance from landmark lm to point (px, py). The source computes
    d = Math.hypot(lm[0] - pt.x, lm[1] - pt.y) and compares d with the
    radius and with the best distance so far; both comparisons are between
    nonnegative reals, so comparing squares is equivalent, and squares stay
    rational. -/
def dist2 (lm : Landmark) (px py : ℚ) : ℚ :=
  (lm.x - px) ^ 2 + (lm.y - py) ^ 2

/-- The search loop of source snapPointToNearestLandmark: scan the mesh,
    skipping holes, keeping the first strictly-best squared distance within
    the squared radius r2. State best is (index, squared distance). -/
def bestSnap (px py r2 : ℚ) : Mesh → ℕ → Option (ℕ × ℚ) → Option (ℕ × ℚ)
  | [], _, best => best
  | olm :: rest, i, best =>
    match olm with
    | none => bestSnap px py r2 rest (i + 1) best
    | some lm =>
      let d := dist2 lm px py
      let best' :=
        match best with
        | none => if d ≤ r2 then some (i, d) else none
        | some b => if d ≤ r2 ∧ d < b.2 then some (i, d) else some b
      bestSnap px py r2 rest (i + 1) best'

/-- The component state the claims are about: the landmark mesh, the
    annotation marker list, and the nanoid counter (see the header note). -/
structure FState where
  landmarks : Mesh
  points : List AnnotationPoint
  ctr : ℕ
deriving DecidableEq

/-- Source snapPointToNearestLandmark: find the marker, bail out when it or
    the mesh is missing, search for the nearest landmark within the radius,
    and move the marker there through updatePointMeta. r2 below is radius
    squared (see dist2); the only call site uses the default radius 12.
    The inner none arm after bestSnap succeeds mirrors the unconditional
    landmarks[best.idx] read of the source; bestSnap only returns indices
    of present landmarks (bestSnap_found below), so that arm is dead. -/
def snapPointToNearestLandmark (st : FState) (pid : ℕ) (radius : ℚ) : FState :=
  match st.points.find? (fun p => p.id == pid) with
  | none => st
  | some pt =>
    if st.landmarks = [] then st
    else
      match bestSnap pt.x pt.y (radius * radius) st.landmarks 0 none with
      | none => st
      | some best =>
        match getLm st.landmarks best.1 with
        | none => st
        | some lm =>
          { st with points := updatePointMeta pid ⟨some lm.x, some lm.y, none, none⟩ st.points }

/-- Source removePoint: filter the marker with the given id out. -/
def removePoint (pid : ℕ) (st : FState) : FState :=
  { st with points := st.points.filter (fun p => p.id != pid) }

/-- Source onAddPoint: append a marker at the stage centre with a fresh id
    and empty product/dose. (imageFit and stageSize agree on the stage
    dimensions whenever an image is loaded; both are stageW/stageH here.) -/
def onAddPoint (stageW stageH : ℚ) (st : FState) : FState :=
  { st with
      points := st.points ++ [⟨st.ctr, stageW / 2, stageH / 2, some "", some ""⟩]
      ctr := st.ctr + 1 }

/-- The new-file handler of the file input onChange: reset markers, mesh
    (and image fit, which is outside this state). -/
def onNewFile (st : FState) : FState :=
  { st with points := [], landmarks := [] }

/-- The three preset names of source presetTemplates. -/
inductive PresetName
  | lips
  | nasolabial
  | marionette
deriving DecidableEq

/-- Source presetTemplates: index table and label per preset. -/
def presetTemplates : PresetName → List ℕ × String
  | .lips => ([13, 14, 78, 308], "Lips")
  | .nasolabial => ([50, 280, 146, 376], "Nasolabial")
  | .marionette => ([57, 287, 164, 393], "Marionette")

/-- One iteration of the index loop of source addPreset: the landmark when
    present, else the midline/thirds guess when both are available, else
    the stage-centre guess. accLen is newPts.length at this iteration and
    c the fresh id for this point. -/
def presetPoint (l : Mesh) (stageW stageH : ℚ) (accLen c idx : ℕ) :
    AnnotationPoint :=
  match getLm l idx with
  | some lm => ⟨c, lm.x, lm.y, some "", some ""⟩
  | none =>
    match midlineEndpoints l, thirdsYs l with
    | some me, some th =>
      let cx := (me.1.x + me.2.x) / 2
      let dx := if accLen % 2 = 0 then (-12 : ℚ) else 12
      let y := if accLen < 2 then th.y1 else th.y2
      ⟨c, cx + dx, y, some "", some ""⟩
    | _, _ =>
      ⟨c, stageW / 2 + ((accLen : ℚ) - 1) * 10, stageH / 2, some "", some ""⟩

/-- The index loop of source addPreset, pushing one point (and consuming
    one nanoid) per index. -/
def presetLoop (l : Mesh) (stageW stageH : ℚ) :
    List ℕ → List AnnotationPoint → ℕ → List AnnotationPoint × ℕ
  | [], acc, c => (acc, c)
  | idx :: rest, acc, c =>
    presetLoop l stageW stageH rest
      (acc ++ [presetPoint l stageW stageH acc.length c idx]) (c + 1)

/-- Source addPreset: with no mesh, append four fallback points around the
    stage centre; with a mesh, append one point per template index via the
    index loop. Every branch consumes one nanoid per appended point. -/
def addPreset (stageW stageH : ℚ) (st : FState) (name : PresetName) : FState :=
  if st.landmarks = [] then
    let cx := stageW / 2
    let cy := stageH / 2
    let mk : ℚ → ℕ → AnnotationPoint := fun i c =>
      ⟨c, cx + (i - 3 / 2) * 12, cy + (i - 3 / 2) * 10, some "", some ""⟩
    let fallbackPoints :=
      [mk (-1) st.ctr, mk 0 (st.ctr + 1), mk 1 (st.ctr + 2), mk 2 (st.ctr + 3)]
    { st with points := st.points ++ fallbackPoints, ctr := st.ctr + 4 }
  else
    let r := presetLoop st.landmarks stageW stageH (presetTemplates name).1 [] st.ctr
    { st with points := st.points ++ r.1, ctr := r.2 }

/-- The lips index table used by the first-detection auto-population. -/
def lipsIndices : List ℕ := [13, 14, 78, 308]

/-- The defaultPoints construction of source detectOnce: map the lips
    indices over the mesh, skipping absent ones, consuming one nanoid per
    created point (the source calls nanoid() only after the presence
    check). Returns the points and the advanced counter. -/
def autoPoints : List ℕ → Mesh → ℕ → List AnnotationPoint × ℕ
  | [], _, c => ([], c)
  | i :: is, m, c =>
    match getLm m i with
    | none => autoPoints is m c
    | some lm =>
      let r := autoPoints is m (c + 1)
      (⟨c, lm.x, lm.y, some "", some ""⟩ :: r.1, r.2)

/-- The observable outcomes of one run of the estimateFaces cascade plus
    prediction extraction in source detectOnce:
    * fail: every estimateFaces call shape threw (predictions stayed null,
      the routine logs and rethrows);
    * empty: predictions is the empty list;
    * extractThrow: the prediction-extraction code threw (e.g. the
      keypoints map dereferencing a bad keypoint);
    * mesh m: extraction produced mesh m (the unknown-shape warn path is
      mesh []). -/
inductive DetectOutcome
  | fail
  | empty
  | extractThrow
  | mesh (m : Mesh)
deriving DecidableEq

/-- Source detectOnce as a state transformer. The cancelled flag is the
    value of the closure boolean at its single check site, which sits after
    the await cascade (and its rethrow) and before every setLandmarks /
    setPoints call; the extraction code runs after that check, so
    extractThrow also leaves the state unchanged. On success the mesh
    replaces the landmarks wholesale and, when the marker list was empty
    and the mesh is not, the lips auto-population replaces the (empty)
    marker list. Every failure path ends in console.error only. -/
def stepDetect (st : FState) (o : DetectOutcome) (cancelled : Bool) : FState :=
  match o with
  | .fail => st
  | .empty => if cancelled then st else { st with landmarks := [] }
  | .extractThrow => st
  | .mesh m =>
    if cancelled then st
    else if st.points = [] ∧ m ≠ [] then
      let r := autoPoints lipsIndices m st.ctr
      { landmarks := m, points := r.1, ctr := r.2 }
    else { st with landmarks := m }

/-- Outcome of one awaited external call that either returns a value or
    throws. -/
inductive TryRes (α : Type)
  | ok (val : α)
  | err
deriving DecidableEq

/-- Source setup (the detector effect) over the outcomes of its awaited
    calls: backendInit covers tf.setBackend/tf.ready, createRes the
    createDetector attempt, legacyRes the legacy load() attempt; detectors
    are opaque tokens. mounted is the effect-cleanup flag guarding
    setDetector. Returns the detector state (from prior, null on mount)
    and whether the legacy fallback was attempted. When both attempts
    fail, errLegacy is rethrown into the outer catch, which only logs. -/
def setupModel (backendInit : TryRes Unit) (createRes legacyRes : TryRes ℕ)
    (mounted : Bool) (prior : Option ℕ) : Option ℕ × Bool :=
  match backendInit with
  | .err => (prior, false)
  | .ok _ =>
    match createRes with
    | .ok d => (if mounted then some d else prior, false)
    | .err =>
      match legacyRes with
      | .ok d => (if mounted then some d else prior, true)
      | .err => (prior, true)

/-- The marker operations of the component, as enumerated by the
    uniqueness claim: manual add, preset add, detection (with its
    auto-population), drag update, product/dose edit, snap, remove, and
    the new-file reset. -/
inductive Op
  | addPoint
  | preset (name : PresetName)
  | detect (o : DetectOutcome) (cancelled : Bool)
  | dragEnd (pid : ℕ) (nx ny : ℚ)
  | editMeta (pid : ℕ) (u : PointUpdate)
  | snapTo (pid : ℕ) (radius : ℚ)
  | removeId (pid : ℕ)
  | newFile

/-- One user/system operation on the component state. onDragEnd calls
    updatePointMeta with the new x/y, form edits call it with product or
    dose, matching the source handlers. -/
def step (stageW stageH : ℚ) (st : FState) : Op → FState
  | .addPoint => onAddPoint stageW stageH st
  | .preset name => addPreset stageW stageH st name
  | .detect o c => stepDetect st o c
  | .dragEnd pid nx ny =>
      { st with points := updatePointMeta pid ⟨some nx, some ny, none, none⟩ st.points }
  | .editMeta pid u => { st with points := updatePointMeta pid u st.points }
  | .snapTo pid radius => snapPointToNearestLandmark st pid radius
  | .removeId pid => removePoint pid st
  | .newFile => onNewFile st

/-- The initial component state: empty mesh, no markers, fresh counter. -/
def initState : FState := ⟨[], [], 0⟩

/-! ## Claim theorems -/

/-- Claim C1: every detection or model-loading failure (detector setup
    throwing, the whole estimateFaces cascade throwing, or prediction
    extraction throwing) is only logged and leaves the component state
    (landmark mesh and annotation-marker list) exactly as it was before the
    failing operation: detectOnce failure outcomes are state identities,
    and a failing setup leaves the detector state at its prior value (it
    never touches the mesh or the markers). -/
theorem C1_failures_preserve_state :
    ∀ (st : FState) (c : Bool) (b : TryRes Unit) (cRes lRes : TryRes ℕ)
      (mounted : Bool) (prior : Option ℕ),
      stepDetect st .fail c = st
      ∧ stepDetect st .extractThrow c = st
      ∧ (setupModel .err cRes lRes mounted prior).1 = prior
      ∧ (setupModel b .err .err mounted prior).1 = prior := by
  intro st c b cRes lRes mounted prior
  refine ⟨rfl, rfl, rfl, ?_⟩
  cases b <;> rfl

/-- Claim C5: the cancellation flag is consulted before any state update in
    the detection routine, so a run that observes cancellation performs no
    update at all: with cancelled = true, stepDetect is the identity on the
    component state for every outcome. -/
theorem C5_cancelled_no_state_update :
    ∀ (st : FState) (o : DetectOutcome), stepDetect st o true = st := by
  intro st o
  cases o <;> simp [stepDetect]

/-- Modelled from the claim wording of C6: the detector state the cascade
    should end in, namely the createDetector result if it succeeded, else
    the legacy load result if that succeeded, else null. -/
def specDetectorAfterSetup (createRes legacyRes : TryRes ℕ) : Option ℕ :=
  match createRes with
  | .ok d => some d
  | .err =>
    match legacyRes with
    | .ok d => some d
    | .err => none

/-- Modelled from the claim wording of C6: the legacy fallback is attempted
    exactly when createDetector throws. -/
def specLegacyAttempted (createRes : TryRes ℕ) : Bool :=
  match createRes with
  | .ok _ => false
  | .err => true

/-- Claim C6: model loading is a sequential try/catch cascade. With the
    backend initialised and the component mounted, starting from the null
    detector state: the legacy fallback is attempted iff createDetector
    throws, the resulting detector is the first successful attempt, and
    when both attempts fail the detector state stays null (the rethrown
    error is only logged by the outer catch). -/
theorem C6_setup_cascade :
    ∀ (cRes lRes : TryRes ℕ),
      setupModel (.ok ()) cRes lRes true none
        = (specDetectorAfterSetup cRes lRes, specLegacyAttempted cRes) := by
  intro cRes lRes
  cases cRes <;> cases lRes <;> rfl

/-- Helper: Math.round of a value at most n is at most n for natural n. -/
theorem jsRound_le (q : ℚ) (n : ℕ) (h : q ≤ n) : ((jsRound q : ℤ) : ℚ) ≤ n := by
  unfold jsRound
  have h1 : (⌊q + 1 / 2⌋ : ℤ) < (n : ℤ) + 1 := by
    apply Int.floor_lt.mpr
    push_cast
    linarith
  have h2 : (⌊q + 1 / 2⌋ : ℤ) ≤ (n : ℤ) := by omega
  exact_mod_cast h2

/-- Counterexample to claim C4 as stated: over all strictly positive inputs
    the bound height at most stageH fails, because Math.round can round the
    scaled coordinate up past a fractional stage dimension. At
    imageWidth = 2, imageHeight = 1, stageW = 21, stageH = 53/5 the image
    ratio 2 exceeds the stage ratio 105/53, the unrounded height is
    21/2 = 10.5, and Math.round gives 11 > 53/5. (The float computation of
    the source agrees: 21/2 and Math.round(10.5) = 11 are exact.) -/
theorem C4_counterexample :
    0 < (2 : ℚ) ∧ 0 < (1 : ℚ) ∧ 0 < (21 : ℚ) ∧ 0 < (53 / 5 : ℚ)
    ∧ ¬((fitImage 2 1 21 (53 / 5)).2 ≤ 53 / 5) := by
  refine ⟨by norm_num, by norm_num, by norm_num, by norm_num, ?_⟩
  have h : fitImage 2 1 21 (53 / 5) = (21, 11) := by
    unfold fitImage jsRound
    norm_num [Int.floor_eq_iff]
  rw [h]
  norm_num

/-- Claim C4 (amended): fitImage is correct closed-form image-fit scaling
    once the stage dimensions are positive integers (as they are at every
    call site; the claim fails for fractional stage dimensions, see the
    counterexample). For strictly positive rational image dimensions and
    positive natural stage dimensions: width is at most stageW, height at
    most stageH, one of the two equals its stage dimension, and the rounded
    coordinate is exactly Math.round of the proportional value. -/
theorem C4_fitImage_amended :
    ∀ (w h : ℚ) (W H : ℕ), 0 < w → 0 < h → 0 < W → 0 < H →
      (fitImage w h W H).1 ≤ W
      ∧ (fitImage w h W H).2 ≤ H
      ∧ ((fitImage w h W H).1 = W ∨ (fitImage w h W H).2 = H)
      ∧ ((W : ℚ) / H < w / h →
          fitImage w h W H = ((W : ℚ), (jsRound ((W : ℚ) * h / w) : ℚ)))
      ∧ (w / h ≤ (W : ℚ) / H →
          fitImage w h W H = ((jsRound ((H : ℚ) * w / h) : ℚ), (H : ℚ))) := by
  intro w h W H hw hh hW hH
  have hWq : (0 : ℚ) < W := by exact_mod_cast hW
  have hHq : (0 : ℚ) < H := by exact_mod_cast hH
  by_cases hc : (W : ℚ) / H < w / h
  · have harg : (W : ℚ) / (w / h) = (W : ℚ) * h / w := div_div_eq_mul_div _ _ _
    have hfit : fitImage w h W H = ((W : ℚ), (jsRound ((W : ℚ) * h / w) : ℚ)) := by
      unfold fitImage
      rw [if_pos hc, harg]
    have hlt : (W : ℚ) * h / w < H := by
      rw [div_lt_iff₀ hw]
      have := (div_lt_div_iff₀ hHq hh).mp hc
      linarith
    refine ⟨?_, ?_, ?_, ?_, ?_⟩
    · rw [hfit]
    · rw [hfit]
      exact jsRound_le _ _ hlt.le
    · left
      rw [hfit]
    · intro _
      exact hfit
    · intro hle
      exact absurd hc (not_lt.mpr hle)
  · have harg : (H : ℚ) * (w / h) = (H : ℚ) * w / h := mul_div_assoc' _ _ _
    have hfit : fitImage w h W H = ((jsRound ((H : ℚ) * w / h) : ℚ), (H : ℚ)) := by
      unfold fitImage
      rw [if_neg hc, harg]
    have hle : (H : ℚ) * w / h ≤ W := by
      rw [div_le_iff₀ hh]
      have := (div_le_div_iff₀ hh hHq).mp (not_lt.mp hc)
      linarith
    refine ⟨?_, ?_, ?_, ?_, ?_⟩
    · rw [hfit]
      exact jsRound_le _ _ hle
    · rw [hfit]
    · right
      rw [hfit]
    · intro hlt
      exact absurd hlt hc
    · intro _
      exact hfit

/-- Witness for C4 (amended) at the concrete input 2, 1, 21, 10: the stage
    bounds hold and the height branch is taken. -/
theorem C4_fitImage_amended_witness :
    (fitImage 2 1 21 10).1 ≤ (21 : ℕ)
    ∧ (fitImage 2 1 21 10).2 ≤ (10 : ℕ)
    ∧ ((fitImage 2 1 21 10).1 = (21 : ℕ) ∨ (fitImage 2 1 21 10).2 = (10 : ℕ))
    ∧ (((21 : ℕ) : ℚ) / (10 : ℕ) < 2 / 1 →
        fitImage 2 1 21 10 = (((21 : ℕ) : ℚ), (jsRound (((21 : ℕ) : ℚ) * 1 / 2) : ℚ)))
    ∧ ((2 : ℚ) / 1 ≤ ((21 : ℕ) : ℚ) / (10 : ℕ) →
        fitImage 2 1 21 10 = ((jsRound (((10 : ℕ) : ℚ) * 2 / 1) : ℚ), ((10 : ℕ) : ℚ))) :=
  C4_fitImage_amended 2 1 21 10 (by norm_num) (by norm_num) (by norm_num) (by norm_num)

/-! ### updatePointMeta frame lemmas (shared by C8, C9 and C2) -/

/-- updatePointMeta preserves the length of the marker list. -/
theorem updatePointMeta_length (pid : ℕ) (u : PointUpdate)
    (pts : List AnnotationPoint) :
    (updatePointMeta pid u pts).length = pts.length := by
  simp [updatePointMeta]

/-- applyUpdate never changes the identifier. -/
theorem applyUpdate_id (pt : AnnotationPoint) (u : PointUpdate) :
    (applyUpdate pt u).id = pt.id := rfl

/-- updatePointMeta leaves the identifier sequence untouched. -/
theorem updatePointMeta_map_id (pid : ℕ) (u : PointUpdate)
    (pts : List AnnotationPoint) :
    (updatePointMeta pid u pts).map AnnotationPoint.id
      = pts.map AnnotationPoint.id := by
  induction pts with
  | nil => rfl
  | cons pt rest ih =>
    simp only [updatePointMeta, List.map_cons] at ih ⊢
    by_cases h : pt.id = pid
    · rw [if_pos h, applyUpdate_id, ih]
    · rw [if_neg h, ih]

/-- Positionwise description of updatePointMeta. -/
theorem updatePointMeta_getElem (pid : ℕ) (u : PointUpdate)
    (pts : List AnnotationPoint) (i : ℕ) :
    (updatePointMeta pid u pts)[i]?
      = (pts[i]?).map (fun pt => if pt.id = pid then applyUpdate pt u else pt) := by
  simp [updatePointMeta]

/-- When no marker carries the id, updatePointMeta is the identity. -/
theorem updatePointMeta_no_match (pid : ℕ) (u : PointUpdate)
    (pts : List AnnotationPoint) (h : ∀ pt ∈ pts, pt.id ≠ pid) :
    updatePointMeta pid u pts = pts := by
  induction pts with
  | nil => rfl
  | cons pt rest ih =>
    simp only [updatePointMeta, List.map_cons]
    rw [if_neg (h pt (List.mem_cons_self pt rest))]
    have := ih (fun q hq => h q (List.mem_cons_of_mem pt hq))
    simp only [updatePointMeta] at this
    rw [this]

/-- Claim C8: drag and form-edit mutations are frame-preserving. For every
    marker list, id and partial update, updatePointMeta keeps the length
    (hence the order, being a map), leaves every marker whose id differs
    untouched, and on a matching marker changes exactly the fields present
    in the update, keeping the id and every absent field; when no marker
    carries the id the whole list is unchanged. -/
theorem C8_updatePointMeta_frame :
    ∀ (pts : List AnnotationPoint) (pid : ℕ) (u : PointUpdate),
      (updatePointMeta pid u pts).length = pts.length
      ∧ (∀ (i : ℕ) (pt : AnnotationPoint), pts[i]? = some pt →
          (pt.id ≠ pid → (updatePointMeta pid u pts)[i]? = some pt)
          ∧ (pt.id = pid → ∃ qt : AnnotationPoint, (updatePointMeta pid u pts)[i]? = some qt
              ∧ qt.id = pt.id
              ∧ (u.x = none → qt.x = pt.x) ∧ (∀ v, u.x = some v → qt.x = v)
              ∧ (u.y = none → qt.y = pt.y) ∧ (∀ v, u.y = some v → qt.y = v)
              ∧ (u.product = none → qt.product = pt.product)
              ∧ (∀ s, u.product = some s → qt.product = some s)
              ∧ (u.dose = none → qt.dose = pt.dose)
              ∧ (∀ s, u.dose = some s → qt.dose = some s)))
      ∧ ((∀ pt ∈ pts, pt.id ≠ pid) → updatePointMeta pid u pts = pts) := by
  intro pts pid u
  refine ⟨updatePointMeta_length pid u pts, ?_, updatePointMeta_no_match pid u pts⟩
  intro i pt hpt
  constructor
  · intro hne
    rw [updatePointMeta_getElem, hpt]
    simp [if_neg hne]
  · intro heq
    refine ⟨applyUpdate pt u, ?_, applyUpdate_id pt u, ?_⟩
    · rw [updatePointMeta_getElem, hpt]
      simp [if_pos heq]
    · refine ⟨?_, ?_, ?_, ?_, ?_, ?_, ?_, ?_⟩ <;>
        first
          | (intro h; simp [applyUpdate, h])
          | (intro v h; simp [applyUpdate, h])

/-- Witness for C8 at a concrete two-marker list: update marker 0 with a new
    x and product, leaving y, dose and marker 1 untouched. -/
theorem C8_updatePointMeta_frame_witness :
    (updatePointMeta 0 ⟨some 5, none, some "p", none⟩
        [⟨0, 1, 2, none, none⟩, ⟨1, 3, 4, some "a", none⟩]).length
      = ([⟨0, 1, 2, none, none⟩, ⟨1, 3, 4, some "a", none⟩] :
          List AnnotationPoint).length
    ∧ (∀ (i : ℕ) (pt : AnnotationPoint),
        ([⟨0, 1, 2, none, none⟩, ⟨1, 3, 4, some "a", none⟩] :
            List AnnotationPoint)[i]? = some pt →
        (pt.id ≠ 0 → (updatePointMeta 0 ⟨some 5, none, some "p", none⟩
            [⟨0, 1, 2, none, none⟩, ⟨1, 3, 4, some "a", none⟩])[i]? = some pt)
        ∧ (pt.id = 0 → ∃ qt : AnnotationPoint, (updatePointMeta 0 ⟨some 5, none, some "p", none⟩
              [⟨0, 1, 2, none, none⟩, ⟨1, 3, 4, some "a", none⟩])[i]? = some qt
            ∧ qt.id = pt.id
            ∧ ((⟨some 5, none, some "p", none⟩ : PointUpdate).x = none → qt.x = pt.x)
            ∧ (∀ v, (⟨some 5, none, some "p", none⟩ : PointUpdate).x = some v → qt.x = v)
            ∧ ((⟨some 5, none, some "p", none⟩ : PointUpdate).y = none → qt.y = pt.y)
            ∧ (∀ v, (⟨some 5, none, some "p", none⟩ : PointUpdate).y = some v → qt.y = v)
            ∧ ((⟨some 5, none, some "p", none⟩ : PointUpdate).product = none →
                qt.product = pt.product)
            ∧ (∀ s, (⟨some 5, none, some "p", none⟩ : PointUpdate).product = some s →
                qt.product = some s)
            ∧ ((⟨some 5, none, some "p", none⟩ : PointUpdate).dose = none →
                qt.dose = pt.dose)
            ∧ (∀ s, (⟨some 5, none, some "p", none⟩ : PointUpdate).dose = some s →
                qt.dose = some s)))
    ∧ ((∀ pt ∈ ([⟨0, 1, 2, none, none⟩, ⟨1, 3, 4, some "a", none⟩] :
          List AnnotationPoint), pt.id ≠ 0) →
        updatePointMeta 0 ⟨some 5, none, some "p", none⟩
          [⟨0, 1, 2, none, none⟩, ⟨1, 3, 4, some "a", none⟩]
          = [⟨0, 1, 2, none, none⟩, ⟨1, 3, 4, some "a", none⟩]) :=
  C8_updatePointMeta_frame [⟨0, 1, 2, none, none⟩, ⟨1, 3, 4, some "a", none⟩] 0
    ⟨some 5, none, some "p", none⟩

/-! ### First-detection auto-population (C7) -/

/-- Characterisation of the defaultPoints construction: coordinates follow
    the present indices in order, labels are empty, identifiers are the
    consecutive fresh counter values, and the counter advances by the
    number of created points. -/
theorem autoPoints_spec (idxs : List ℕ) (m : Mesh) :
    ∀ c : ℕ,
      (autoPoints idxs m c).1.map (fun p => (p.x, p.y))
        = (idxs.filterMap (fun i => getLm m i)).map (fun lm => (lm.x, lm.y))
      ∧ (autoPoints idxs m c).1.map AnnotationPoint.id
          = List.range' c (autoPoints idxs m c).1.length
      ∧ (∀ p ∈ (autoPoints idxs m c).1, p.product = some "" ∧ p.dose = some "")
      ∧ (autoPoints idxs m c).2 = c + (autoPoints idxs m c).1.length := by
  induction idxs with
  | nil =>
    intro c
    simp [autoPoints]
  | cons i is ih =>
    intro c
    by_cases h : (getLm m i).isSome
    · obtain ⟨lm, hlm⟩ := Option.isSome_iff_exists.mp h
      have hstep : autoPoints (i :: is) m c
          = (⟨c, lm.x, lm.y, some "", some ""⟩ :: (autoPoints is m (c + 1)).1,
             (autoPoints is m (c + 1)).2) := by
        simp [autoPoints, hlm]
      obtain ⟨ihc, ihid, ihpd, ihctr⟩ := ih (c + 1)
      refine ⟨?_, ?_, ?_, ?_⟩
      · rw [hstep]
        simp only [List.map_cons, List.filterMap_cons, hlm, ihc]
      · rw [hstep]
        simp only [List.map_cons, List.length_cons, List.range'_succ, ihid]
      · rw [hstep]
        intro p hp
        rcases List.mem_cons.mp hp with hp | hp
        · rw [hp]
          exact ⟨rfl, rfl⟩
        · exact ihpd p hp
      · rw [hstep]
        simp only [List.length_cons, ihctr]
        omega
    · have hlm : getLm m i = none := Option.not_isSome_iff_eq_none.mp h
      have hstep : autoPoints (i :: is) m c = autoPoints is m c := by
        simp [autoPoints, hlm]
      obtain ⟨ihc, ihid, ihpd, ihctr⟩ := ih c
      rw [hstep]
      refine ⟨?_, ihid, ihpd, ihctr⟩
      simp only [List.filterMap_cons, hlm, ihc]

/-- Claim C7: on a successful detection with mesh m (not cancelled), the
    mesh replaces the landmarks; default markers are created iff the marker
    list was empty and the mesh non-empty; and the created markers are
    exactly the present lips indices among [13, 14, 78, 308], in order, at
    the landmark coordinates, with fresh pairwise distinct identifiers and
    empty product and dose labels, hence at most four markers. -/
theorem C7_first_detection_auto_population :
    ∀ (st : FState) (m : Mesh),
      (stepDetect st (.mesh m) false).landmarks = m
      ∧ (¬(st.points = [] ∧ m ≠ []) →
          (stepDetect st (.mesh m) false).points = st.points
          ∧ (stepDetect st (.mesh m) false).ctr = st.ctr)
      ∧ (st.points = [] → m ≠ [] →
          (stepDetect st (.mesh m) false).points.length ≤ 4
          ∧ (stepDetect st (.mesh m) false).points.map (fun p => (p.x, p.y))
              = (lipsIndices.filterMap (fun i => getLm m i)).map
                  (fun lm => (lm.x, lm.y))
          ∧ (∀ p ∈ (stepDetect st (.mesh m) false).points,
              p.product = some "" ∧ p.dose = some "")
          ∧ (stepDetect st (.mesh m) false).points.map AnnotationPoint.id
              = List.range' st.ctr (stepDetect st (.mesh m) false).points.length
          ∧ ((stepDetect st (.mesh m) false).points.map AnnotationPoint.id).Nodup) := by
  intro st m
  by_cases hcond : st.points = [] ∧ m ≠ []
  · have hstep : stepDetect st (.mesh m) false
        = { landmarks := m, points := (autoPoints lipsIndices m st.ctr).1,
            ctr := (autoPoints lipsIndices m st.ctr).2 } := by
      simp [stepDetect, hcond]
    obtain ⟨hc, hid, hpd, _⟩ := autoPoints_spec lipsIndices m st.ctr
    refine ⟨by rw [hstep], fun hn => absurd hcond hn, fun _ _ => ?_⟩
    have hlen : (autoPoints lipsIndices m st.ctr).1.length ≤ 4 := by
      have h1 : (autoPoints lipsIndices m st.ctr).1.length
          = ((autoPoints lipsIndices m st.ctr).1.map (fun p => (p.x, p.y))).length := by
        simp
      rw [h1, hc]
      have h2 := List.length_filterMap_le (fun i => getLm m i) lipsIndices
      simpa [lipsIndices] using h2
    refine ⟨by rw [hstep]; exact hlen, by rw [hstep]; exact hc,
            by rw [hstep]; exact hpd, by rw [hstep]; exact hid, ?_⟩
    rw [hstep]
    simp only
    rw [hid]
    exact List.nodup_range' _ _
  · have hstep : stepDetect st (.mesh m) false = { st with landmarks := m } := by
      simp only [stepDetect, Bool.false_eq_true, if_false]
      rw [if_neg hcond]
    refine ⟨by rw [hstep], fun _ => ⟨by rw [hstep], by rw [hstep]⟩, fun h1 h2 => ?_⟩
    exact absurd ⟨h1, h2⟩ hcond

/-! ### Overlay skip behaviour (C3) -/

/-- A landmark read beyond the mesh length is absent. -/
theorem getLm_eq_none_of_le (l : Mesh) (i : ℕ) (h : l.length ≤ i) :
    getLm l i = none := by
  simp [getLm, List.getElem?_eq_none h]

/-- A present landmark read is within the mesh length. -/
theorem lt_of_getLm_isSome {l : Mesh} {i : ℕ} (h : (getLm l i).isSome) :
    i < l.length := by
  by_contra hn
  rw [getLm_eq_none_of_le l i (by omega)] at h
  simp at h

/-- The indicesToXY loop returns null as soon as any referenced landmark is
    absent. -/
theorem collectXY_eq_none (l : Mesh) :
    ∀ idxs : List ℕ, ∀ i ∈ idxs, getLm l i = none → collectXY l idxs = none := by
  intro idxs
  induction idxs with
  | nil =>
    intro i hi
    exact absurd hi (List.not_mem_nil i)
  | cons j js ih =>
    intro i hi hnone
    rcases List.mem_cons.mp hi with h | h
    · subst h
      simp [collectXY, hnone]
    · have hjs := ih i h hnone
      unfold collectXY
      cases getLm l j
      · rfl
      · rw [hjs]

/-- The one-line guard: a construct referencing an absent landmark index
    resolves to null in indicesToXY. -/
theorem indicesToXY_eq_none (idxs : List ℕ) (l : Mesh)
    (h : ∃ i ∈ idxs, getLm l i = none) : indicesToXY idxs l = none := by
  obtain ⟨i, hi, hnone⟩ := h
  unfold indicesToXY
  by_cases hl : l = []
  · rw [if_pos hl]
  · rw [if_neg hl]
    exact collectXY_eq_none l idxs i hi hnone

/-- Counterexample to claim C3 as stated: the midline construct references
    landmark indices 10 and 152; on the concrete two-landmark mesh below
    both are absent, yet midlineEndpoints still produces endpoints (the
    bounding-box substitute), so the midline is drawn with substituted
    geometry instead of being skipped. -/
theorem C3_counterexample :
    getLm [some ⟨0, 0, none⟩, some ⟨4, 6, none⟩] 10 = none
    ∧ getLm [some ⟨0, 0, none⟩, some ⟨4, 6, none⟩] 152 = none
    ∧ midlineEndpoints [some ⟨0, 0, none⟩, some ⟨4, 6, none⟩]
        = some (⟨2, 0⟩, ⟨2, 6⟩) := by
  refine ⟨rfl, rfl, ?_⟩
  have h : midlineEndpoints [some ⟨0, 0, none⟩, some ⟨4, 6, none⟩]
      = midlineFallback [some ⟨0, 0, none⟩, some ⟨4, 6, none⟩] := by
    simp [midlineEndpoints]
  rw [h]
  have hb : bboxOf [some ⟨0, 0, none⟩, some ⟨4, 6, none⟩] = some (0, 4, 0, 6) := by
    simp only [bboxOf, presentLms, List.filterMap_cons, List.filterMap_nil, bboxLoop]
    norm_num [min_def, max_def]
  simp only [midlineFallback, hb]
  norm_num
  intro hfalse
  exact absurd hfalse (by simp)

/-- Claim C3 (amended): missing landmark index means skip drawing for the
    eye-line, the muscle regions (their boundaries) and the vessel paths,
    through the indicesToXY null guard; the two exceptions the code makes
    are substitutions, not skips: the midline falls back to a vertical line
    through the bounding box of the present landmarks whenever indices 10
    or 152 are unavailable (drawing primitives are still produced as long
    as any landmark is present), and the muscle fiber strokes fall back to
    the boundary polyline when the centerline fails to resolve. -/
theorem C3_overlay_skip_amended :
    ∀ l : Mesh,
      (∀ idxs : List ℕ, (∃ i ∈ idxs, getLm l i = none) → indicesToXY idxs l = none)
      ∧ (eyeLine l = none ↔ ¬((getLm l 33).isSome ∧ (getLm l 263).isSome))
      ∧ (∀ m ∈ muscleDefs, (∃ i ∈ m.boundary, getLm l i = none) →
          ∀ r ∈ musclesToRender l, r.md ≠ m)
      ∧ (∀ v ∈ vesselDefs, (∃ i ∈ v.indices, getLm l i = none) →
          ∀ s ∈ vesselShapes l, s.1 ≠ v)
      ∧ (¬(152 < l.length ∧ (getLm l 10).isSome ∧ (getLm l 152).isSome) →
          midlineEndpoints l = midlineFallback l)
      ∧ (presentLms l ≠ [] → (midlineFallback l).isSome)
      ∧ (∀ r ∈ musclesToRender l, r.centerPts = none → fiberBasePts r = r.boundaryPts) := by
  intro l
  refine ⟨fun idxs h => indicesToXY_eq_none idxs l h, ?_, ?_, ?_, ?_, ?_, ?_⟩
  · by_cases hlen : 263 < l.length
    · cases h33 : getLm l 33 <;> cases h263 : getLm l 263 <;>
        simp [eyeLine, hlen, h33, h263]
    · have h263 : getLm l 263 = none := getLm_eq_none_of_le l 263 (by omega)
      simp [eyeLine, hlen, h263]
  · intro m hm hex r hr heq
    obtain ⟨m', hm', hf⟩ := List.mem_filterMap.mp hr
    obtain ⟨bpts, hb, hr'⟩ := Option.map_eq_some'.mp hf
    have hmd : r.md = m' := by rw [← hr']
    rw [heq] at hmd
    rw [← hmd] at hb
    rw [indicesToXY_eq_none m.boundary l hex] at hb
    exact Option.noConfusion hb
  · intro v hv hex s hs heq
    obtain ⟨v', hv', hf⟩ := List.mem_filterMap.mp hs
    obtain ⟨pts, hp, hs'⟩ := Option.map_eq_some'.mp hf
    have hvd : s.1 = v' := by rw [← hs']
    rw [heq] at hvd
    rw [← hvd] at hp
    rw [indicesToXY_eq_none v.indices l hex] at hp
    exact Option.noConfusion hp
  · intro hcond
    by_cases hlen : 152 < l.length
    · cases h10 : getLm l 10 <;> cases h152 : getLm l 152 <;>
        simp only [midlineEndpoints, hlen, if_true, h10, h152]
      exact absurd ⟨hlen, by simp [h10], by simp [h152]⟩ hcond
    · simp [midlineEndpoints, hlen]
  · intro hpres
    unfold midlineFallback
    have hl : l ≠ [] := by
      intro h
      rw [h] at hpres
      exact hpres rfl
    rw [if_neg hl]
    unfold bboxOf
    cases hp : presentLms l
    · exact absurd hp hpres
    · simp
  · intro r _ h
    unfold fiberBasePts
    rw [h]

/-! ### Snap-to-landmark (C9) -/

@[simp]
theorem getLm_nil (i : ℕ) : getLm [] i = none := rfl

@[simp]
theorem getLm_cons_zero (o : Option Landmark) (rest : Mesh) :
    getLm (o :: rest) 0 = o := rfl

@[simp]
theorem getLm_cons_succ (o : Option Landmark) (rest : Mesh) (k : ℕ) :
    getLm (o :: rest) (k + 1) = getLm rest k := by
  simp [getLm]

/-- When the snap search comes back empty, it started empty and no present
    landmark of the scanned suffix lies within the squared radius. -/
theorem bestSnap_eq_none (px py r2 : ℚ) :
    ∀ (l : Mesh) (i0 : ℕ) (best : Option (ℕ × ℚ)),
      bestSnap px py r2 l i0 best = none →
      best = none ∧ ∀ k lm, getLm l k = some lm → ¬(dist2 lm px py ≤ r2) := by
  intro l
  induction l with
  | nil =>
    intro i0 best h
    refine ⟨h, ?_⟩
    intro k lm hk
    simp at hk
  | cons olm rest ih =>
    intro i0 best h
    cases olm with
    | none =>
      obtain ⟨hb, hrest⟩ := ih (i0 + 1) best h
      refine ⟨hb, ?_⟩
      intro k lm hk
      cases k with
      | zero => simp at hk
      | succ k' =>
        rw [getLm_cons_succ] at hk
        exact hrest k' lm hk
    | some lm0 =>
      cases best with
      | some b0 =>
        have h' : bestSnap px py r2 rest (i0 + 1)
            (if dist2 lm0 px py ≤ r2 ∧ dist2 lm0 px py < b0.2
             then some (i0, dist2 lm0 px py) else some b0) = none := h
        obtain ⟨hb, _⟩ := ih _ _ h'
        by_cases hc : dist2 lm0 px py ≤ r2 ∧ dist2 lm0 px py < b0.2
        · rw [if_pos hc] at hb
          exact Option.noConfusion hb
        · rw [if_neg hc] at hb
          exact Option.noConfusion hb
      | none =>
        have h' : bestSnap px py r2 rest (i0 + 1)
            (if dist2 lm0 px py ≤ r2
             then some (i0, dist2 lm0 px py) else none) = none := h
        obtain ⟨hb, hrest⟩ := ih _ _ h'
        by_cases hc : dist2 lm0 px py ≤ r2
        · rw [if_pos hc] at hb
          exact Option.noConfusion hb
        · refine ⟨rfl, ?_⟩
          intro k lm hk
          cases k with
          | zero =>
            rw [getLm_cons_zero] at hk
            injection hk with hlm
            rw [← hlm]
            exact hc
          | succ k' =>
            rw [getLm_cons_succ] at hk
            exact hrest k' lm hk

/-- When the snap search finds a best candidate, that candidate is a present
    landmark of the scanned suffix within the squared radius (or the passed-in
    best), it is minimal among the present suffix landmarks within the
    radius, and it is at least as good as the passed-in best. -/
theorem bestSnap_eq_some (px py r2 : ℚ) :
    ∀ (l : Mesh) (i0 : ℕ) (best : Option (ℕ × ℚ)) (b : ℕ × ℚ),
      bestSnap px py r2 l i0 best = some b →
      ((∃ k lm, getLm l k = some lm ∧ b.1 = i0 + k
          ∧ b.2 = dist2 lm px py ∧ b.2 ≤ r2)
        ∨ best = some b)
      ∧ (∀ k lm, getLm l k = some lm → dist2 lm px py ≤ r2 →
          b.2 ≤ dist2 lm px py)
      ∧ (∀ b0, best = some b0 → b.2 ≤ b0.2) := by
  intro l
  induction l with
  | nil =>
    intro i0 best b h
    have hbest : best = some b := h
    refine ⟨Or.inr hbest, ?_, ?_⟩
    · intro k lm hk
      simp at hk
    · intro b0 hb0
      rw [hbest] at hb0
      injection hb0 with hb0
      rw [hb0]
  | cons olm rest ih =>
    intro i0 best b h
    cases olm with
    | none =>
      obtain ⟨ih1, ih2, ih3⟩ := ih (i0 + 1) best b h
      refine ⟨?_, ?_, ih3⟩
      · rcases ih1 with ⟨k, lm, hk, h1, h2, h3⟩ | hpass
        · exact Or.inl ⟨k + 1, lm, by rw [getLm_cons_succ]; exact hk,
            by omega, h2, h3⟩
        · exact Or.inr hpass
      · intro k lm hk hle
        cases k with
        | zero => simp at hk
        | succ k' =>
          rw [getLm_cons_succ] at hk
          exact ih2 k' lm hk hle
    | some lm0 =>
      cases best with
      | none =>
        by_cases hc : dist2 lm0 px py ≤ r2
        · have h' : bestSnap px py r2 rest (i0 + 1)
              (some (i0, dist2 lm0 px py)) = some b := by
            have heq : bestSnap px py r2 (some lm0 :: rest) i0 none
                = bestSnap px py r2 rest (i0 + 1)
                    (if dist2 lm0 px py ≤ r2
                     then some (i0, dist2 lm0 px py) else none) := rfl
            rw [heq, if_pos hc] at h
            exact h
          obtain ⟨ih1, ih2, ih3⟩ := ih _ _ _ h'
          refine ⟨?_, ?_, ?_⟩
          · rcases ih1 with ⟨k, lm, hk, h1, h2, h3⟩ | hpass
            · exact Or.inl ⟨k + 1, lm, by rw [getLm_cons_succ]; exact hk,
                by omega, h2, h3⟩
            · injection hpass with hb
              refine Or.inl ⟨0, lm0, by rw [getLm_cons_zero], ?_, ?_, ?_⟩
              · rw [← hb]
                simp
              · rw [← hb]
              · rw [← hb]
                exact hc
          · intro k lm hk hle
            cases k with
            | zero =>
              rw [getLm_cons_zero] at hk
              injection hk with hlm
              rw [← hlm]
              exact ih3 (i0, dist2 lm0 px py) rfl
            | succ k' =>
              rw [getLm_cons_succ] at hk
              exact ih2 k' lm hk hle
          · intro b0 hb0
            exact Option.noConfusion hb0
        · have h' : bestSnap px py r2 rest (i0 + 1) none = some b := by
            have heq : bestSnap px py r2 (some lm0 :: rest) i0 none
                = bestSnap px py r2 rest (i0 + 1)
                    (if dist2 lm0 px py ≤ r2
                     then some (i0, dist2 lm0 px py) else none) := rfl
            rw [heq, if_neg hc] at h
            exact h
          obtain ⟨ih1, ih2, ih3⟩ := ih _ _ _ h'
          refine ⟨?_, ?_, ?_⟩
          · rcases ih1 with ⟨k, lm, hk, h1, h2, h3⟩ | hpass
            · exact Or.inl ⟨k + 1, lm, by rw [getLm_cons_succ]; exact hk,
                by omega, h2, h3⟩
            · exact Option.noConfusion hpass
          · intro k lm hk hle
            cases k with
            | zero =>
              rw [getLm_cons_zero] at hk
              injection hk with hlm
              rw [← hlm] at hle
              exact absurd hle hc
            | succ k' =>
              rw [getLm_cons_succ] at hk
              exact ih2 k' lm hk hle
          · intro b0 hb0
            exact Option.noConfusion hb0
      | some b0 =>
        by_cases hc : dist2 lm0 px py ≤ r2 ∧ dist2 lm0 px py < b0.2
        · have h' : bestSnap px py r2 rest (i0 + 1)
              (some (i0, dist2 lm0 px py)) = some b := by
            have heq : bestSnap px py r2 (some lm0 :: rest) i0 (some b0)
                = bestSnap px py r2 rest (i0 + 1)
                    (if dist2 lm0 px py ≤ r2 ∧ dist2 lm0 px py < b0.2
                     then some (i0, dist2 lm0 px py) else some b0) := rfl
            rw [heq, if_pos hc] at h
            exact h
          obtain ⟨ih1, ih2, ih3⟩ := ih _ _ _ h'
          refine ⟨?_, ?_, ?_⟩
          · rcases ih1 with ⟨k, lm, hk, h1, h2, h3⟩ | hpass
            · exact Or.inl ⟨k + 1, lm, by rw [getLm_cons_succ]; exact hk,
                by omega, h2, h3⟩
            · injection hpass with hb
              refine Or.inl ⟨0, lm0, by rw [getLm_cons_zero], ?_, ?_, ?_⟩
              · rw [← hb]
                simp
              · rw [← hb]
              · rw [← hb]
                exact hc.1
          · intro k lm hk hle
            cases k with
            | zero =>
              rw [getLm_cons_zero] at hk
              injection hk with hlm
              rw [← hlm]
              exact ih3 (i0, dist2 lm0 px py) rfl
            | succ k' =>
              rw [getLm_cons_succ] at hk
              exact ih2 k' lm hk hle
          · intro b1 hb1
            injection hb1 with hb1
            have hle : b.2 ≤ dist2 lm0 px py := ih3 (i0, dist2 lm0 px py) rfl
            rw [← hb1]
            exact le_trans hle (le_of_lt hc.2)
        · have h' : bestSnap px py r2 rest (i0 + 1) (some b0) = some b := by
            have heq : bestSnap px py r2 (some lm0 :: rest) i0 (some b0)
                = bestSnap px py r2 rest (i0 + 1)
                    (if dist2 lm0 px py ≤ r2 ∧ dist2 lm0 px py < b0.2
                     then some (i0, dist2 lm0 px py) else some b0) := rfl
            rw [heq, if_neg hc] at h
            exact h
          obtain ⟨ih1, ih2, ih3⟩ := ih _ _ _ h'
          refine ⟨?_, ?_, ?_⟩
          · rcases ih1 with ⟨k, lm, hk, h1, h2, h3⟩ | hpass
            · exact Or.inl ⟨k + 1, lm, by rw [getLm_cons_succ]; exact hk,
                by omega, h2, h3⟩
            · exact Or.inr hpass
          · intro k lm hk hle
            cases k with
            | zero =>
              rw [getLm_cons_zero] at hk
              injection hk with hlm
              have hb0d : b0.2 ≤ dist2 lm0 px py := by
                by_contra hlt
                rw [← hlm] at hle
                exact hc ⟨hle, lt_of_not_le hlt⟩
              have := ih3 b0 rfl
              rw [← hlm]
              exact le_trans this hb0d
            | succ k' =>
              rw [getLm_cons_succ] at hk
              exact ih2 k' lm hk hle
          · intro b1 hb1
            injection hb1 with hb1
            rw [← hb1]
            exact ih3 b0 rfl

/-- Top-level characterisation of a successful snap search: the result is a
    present landmark within the squared radius whose squared distance is
    minimal over every present landmark of the mesh. -/
theorem bestSnap_found (px py r2 : ℚ) (l : Mesh) (b : ℕ × ℚ)
    (h : bestSnap px py r2 l 0 none = some b) :
    (∃ lm, getLm l b.1 = some lm ∧ b.2 = dist2 lm px py)
    ∧ b.2 ≤ r2
    ∧ ∀ k lm, getLm l k = some lm → b.2 ≤ dist2 lm px py := by
  obtain ⟨h1, h2, _⟩ := bestSnap_eq_some px py r2 l 0 none b h
  rcases h1 with ⟨k, lm, hk, hb1, hb2, hb3⟩ | hpass
  · have hbk : b.1 = k := by omega
    refine ⟨⟨lm, by rw [hbk]; exact hk, hb2⟩, hb3, ?_⟩
    intro k' lm' hk'
    by_cases hle : dist2 lm' px py ≤ r2
    · exact h2 k' lm' hk' hle
    · exact le_trans hb3 (le_of_not_le hle)
  · exact Option.noConfusion hpass

/-- snapPointToNearestLandmark either leaves the state alone or moves one
    marker through an x/y-only updatePointMeta. -/
theorem snap_cases (st : FState) (pid : ℕ) (radius : ℚ) :
    snapPointToNearestLandmark st pid radius = st
    ∨ ∃ lm : Landmark, snapPointToNearestLandmark st pid radius
        = { st with points :=
              updatePointMeta pid ⟨some lm.x, some lm.y, none, none⟩ st.points } := by
  unfold snapPointToNearestLandmark
  cases hf : st.points.find? (fun p => p.id == pid) with
  | none => exact Or.inl rfl
  | some pt =>
    dsimp only
    by_cases hl : st.landmarks = []
    · rw [if_pos hl]
      exact Or.inl rfl
    · rw [if_neg hl]
      cases hb : bestSnap pt.x pt.y (radius * radius) st.landmarks 0 none with
      | none => exact Or.inl rfl
      | some b =>
        dsimp only
        cases hg : getLm st.landmarks b.1 with
        | none => exact Or.inl rfl
        | some lm => exact Or.inr ⟨lm, rfl⟩

/-- The full specification of snapPointToNearestLandmark asserted by claim
    C9: identity when the marker id is absent, the mesh is empty, or no
    landmark lies within the radius; otherwise the target marker moves to a
    present landmark of minimal distance within the radius; and in every
    case the mesh, the counter, the id sequence, all other markers, and the
    target marker's id, product and dose are unchanged. Distances are
    compared squared (see dist2), which is equivalent for a nonnegative
    radius. -/
def SnapSpec (st : FState) (pid : ℕ) (radius : ℚ) : Prop :=
  (st.points.find? (fun p => p.id == pid) = none →
      snapPointToNearestLandmark st pid radius = st)
  ∧ (st.landmarks = [] → snapPointToNearestLandmark st pid radius = st)
  ∧ (∀ pt : AnnotationPoint, st.points.find? (fun p => p.id == pid) = some pt →
      (∀ k lm, getLm st.landmarks k = some lm →
          ¬(dist2 lm pt.x pt.y ≤ radius * radius)) →
      snapPointToNearestLandmark st pid radius = st)
  ∧ (∀ pt : AnnotationPoint, st.points.find? (fun p => p.id == pid) = some pt →
      st.landmarks ≠ [] →
      ∀ b : ℕ × ℚ,
        bestSnap pt.x pt.y (radius * radius) st.landmarks 0 none = some b →
        ∃ lm : Landmark, getLm st.landmarks b.1 = some lm
          ∧ dist2 lm pt.x pt.y ≤ radius * radius
          ∧ (∀ k lm2, getLm st.landmarks k = some lm2 →
              dist2 lm pt.x pt.y ≤ dist2 lm2 pt.x pt.y)
          ∧ snapPointToNearestLandmark st pid radius
              = { st with points := (updatePointMeta pid
                    ⟨some lm.x, some lm.y, none, none⟩ st.points) })
  ∧ (snapPointToNearestLandmark st pid radius).landmarks = st.landmarks
  ∧ (snapPointToNearestLandmark st pid radius).ctr = st.ctr
  ∧ (snapPointToNearestLandmark st pid radius).points.map AnnotationPoint.id
      = st.points.map AnnotationPoint.id
  ∧ (∀ (i : ℕ) (pt : AnnotationPoint), st.points[i]? = some pt → pt.id ≠ pid →
      (snapPointToNearestLandmark st pid radius).points[i]? = some pt)
  ∧ (∀ (i : ℕ) (pt : AnnotationPoint), st.points[i]? = some pt →
      ∃ qt : AnnotationPoint,
        (snapPointToNearestLandmark st pid radius).points[i]? = some qt
        ∧ qt.id = pt.id ∧ qt.product = pt.product ∧ qt.dose = pt.dose)

/-- Claim C9: snapPointToNearestLandmark satisfies SnapSpec for every state,
    marker id and nonnegative radius (the source always calls it with the
    default radius 12). -/
theorem C9_snap_to_nearest :
    ∀ (st : FState) (pid : ℕ) (radius : ℚ), 0 ≤ radius → SnapSpec st pid radius := by
  intro st pid radius _
  refine ⟨?_, ?_, ?_, ?_, ?_, ?_, ?_, ?_, ?_⟩
  · intro h
    unfold snapPointToNearestLandmark
    rw [h]
  · intro h
    unfold snapPointToNearestLandmark
    cases hf : st.points.find? (fun p => p.id == pid) with
    | none => rfl
    | some pt =>
      dsimp only
      rw [if_pos h]
  · intro pt hf hfar
    unfold snapPointToNearestLandmark
    rw [hf]
    dsimp only
    by_cases hl : st.landmarks = []
    · rw [if_pos hl]
    · rw [if_neg hl]
      cases hb : bestSnap pt.x pt.y (radius * radius) st.landmarks 0 none with
      | none => rfl
      | some b =>
        obtain ⟨⟨lm, hg, hd⟩, hle, _⟩ :=
          bestSnap_found pt.x pt.y (radius * radius) st.landmarks b hb
        rw [hd] at hle
        exact absurd hle (hfar b.1 lm hg)
  · intro pt hf hne b hb
    obtain ⟨⟨lm, hg, hd⟩, hle, hmin⟩ :=
      bestSnap_found pt.x pt.y (radius * radius) st.landmarks b hb
    refine ⟨lm, hg, by rw [← hd]; exact hle, ?_, ?_⟩
    · intro k lm2 hk
      rw [← hd]
      exact hmin k lm2 hk
    · unfold snapPointToNearestLandmark
      rw [hf]
      dsimp only
      rw [if_neg hne, hb]
      dsimp only
      rw [hg]
  · rcases snap_cases st pid radius with h | ⟨lm, h⟩ <;> rw [h]
  · rcases snap_cases st pid radius with h | ⟨lm, h⟩ <;> rw [h]
  · rcases snap_cases st pid radius with h | ⟨lm, h⟩ <;> rw [h]
    exact updatePointMeta_map_id pid _ st.points
  · intro i pt hpt hne
    rcases snap_cases st pid radius with h | ⟨lm, h⟩ <;> rw [h]
    · exact hpt
    · rw [updatePointMeta_getElem, hpt]
      simp [if_neg hne]
  · intro i pt hpt
    rcases snap_cases st pid radius with h | ⟨lm, h⟩ <;> rw [h]
    · exact ⟨pt, hpt, rfl, rfl, rfl⟩
    · refine ⟨if pt.id = pid then applyUpdate pt
          ⟨some lm.x, some lm.y, none, none⟩ else pt, ?_, ?_, ?_, ?_⟩
      · rw [updatePointMeta_getElem, hpt]
        rfl
      · by_cases hc : pt.id = pid <;> simp [hc, applyUpdate]
      · by_cases hc : pt.id = pid <;> simp [hc, applyUpdate]
      · by_cases hc : pt.id = pid <;> simp [hc, applyUpdate]

/-- Witness for C9 at a concrete state: one landmark at the origin, one
    marker with id 5 near it, radius 12. -/
theorem C9_snap_to_nearest_witness :
    SnapSpec ⟨[some ⟨0, 0, none⟩], [⟨5, 1, 1, none, none⟩], 9⟩ 5 12 :=
  C9_snap_to_nearest ⟨[some ⟨0, 0, none⟩], [⟨5, 1, 1, none, none⟩], 9⟩ 5 12
    (by norm_num)

/-! ### Identifier uniqueness across marker operations (C2) -/

/-- Every branch of the addPreset loop body assigns the fresh id c. -/
theorem presetPoint_id (l : Mesh) (W H : ℚ) (accLen c idx : ℕ) :
    (presetPoint l W H accLen c idx).id = c := by
  unfold presetPoint
  cases getLm l idx with
  | some lm => rfl
  | none => cases midlineEndpoints l <;> cases thirdsYs l <;> rfl

/-- The addPreset loop appends one point per index, with consecutive fresh
    ids, advancing the counter by the number of indices. -/
theorem presetLoop_spec (l : Mesh) (W H : ℚ) :
    ∀ (idxs : List ℕ) (acc : List AnnotationPoint) (c : ℕ),
      (presetLoop l W H idxs acc c).1.map AnnotationPoint.id
        = acc.map AnnotationPoint.id ++ List.range' c idxs.length
      ∧ (presetLoop l W H idxs acc c).2 = c + idxs.length := by
  intro idxs
  induction idxs with
  | nil =>
    intro acc c
    simp [presetLoop]
  | cons idx rest ih =>
    intro acc c
    obtain ⟨h1, h2⟩ := ih (acc ++ [presetPoint l W H acc.length c idx]) (c + 1)
    have hunfold : presetLoop l W H (idx :: rest) acc c
        = presetLoop l W H rest
            (acc ++ [presetPoint l W H acc.length c idx]) (c + 1) := rfl
    constructor
    · rw [hunfold, h1, List.map_append, List.length_cons, List.range'_succ]
      simp [presetPoint_id]
    · rw [hunfold, h2, List.length_cons]
      omega

/-- The id-uniqueness invariant: pairwise distinct marker ids, all below
    the nanoid counter. -/
def IdsOK (st : FState) : Prop :=
  (st.points.map AnnotationPoint.id).Nodup ∧ ∀ p ∈ st.points, p.id < st.ctr

/-- Appending a block of markers whose ids are the fresh range c..c+n-1
    preserves the invariant with counter c + n. -/
theorem idsOK_append_range (pts newPts : List AnnotationPoint) (c n : ℕ)
    (hnodup : (pts.map AnnotationPoint.id).Nodup)
    (hlt : ∀ p ∈ pts, p.id < c)
    (hids : newPts.map AnnotationPoint.id = List.range' c n) :
    ((pts ++ newPts).map AnnotationPoint.id).Nodup
    ∧ ∀ p ∈ pts ++ newPts, p.id < c + n := by
  constructor
  · rw [List.map_append, hids]
    refine List.Nodup.append hnodup (List.nodup_range' c n) ?_
    intro a ha hr
    obtain ⟨p, hp, hpa⟩ := List.mem_map.mp ha
    obtain ⟨i, _, hi⟩ := List.mem_range'.mp hr
    have := hlt p hp
    omega
  · intro p hp
    rcases List.mem_append.mp hp with h | h
    · have := hlt p h
      omega
    · have hmem : p.id ∈ newPts.map AnnotationPoint.id := List.mem_map_of_mem _ h
      rw [hids] at hmem
      obtain ⟨i, hi, he⟩ := List.mem_range'.mp hmem
      omega

/-- A state whose marker ids agree with those of an invariant-satisfying
    state, with a counter at least as large, satisfies the invariant. -/
theorem idsOK_of_map_id_eq (st st' : FState) (h : IdsOK st)
    (hmap : st'.points.map AnnotationPoint.id = st.points.map AnnotationPoint.id)
    (hctr : st.ctr ≤ st'.ctr) : IdsOK st' := by
  obtain ⟨hnodup, hlt⟩ := h
  constructor
  · rw [hmap]
    exact hnodup
  · intro p hp
    have hmem : p.id ∈ st'.points.map AnnotationPoint.id := List.mem_map_of_mem _ hp
    rw [hmap] at hmem
    obtain ⟨q, hq, hqe⟩ := List.mem_map.mp hmem
    have := hlt q hq
    omega

/-- Each preset template holds four indices. -/
theorem presetTemplates_length (name : PresetName) :
    (presetTemplates name).1.length = 4 := by
  cases name <;> rfl

/-- Every marker operation preserves the id-uniqueness invariant. -/
theorem step_preserves_idsOK (W H : ℚ) (st : FState) (op : Op)
    (h : IdsOK st) : IdsOK (step W H st op) := by
  obtain ⟨hnodup, hlt⟩ := h
  cases op with
  | addPoint =>
    have hids : ([(⟨st.ctr, W / 2, H / 2, some "", some ""⟩ : AnnotationPoint)]).map
        AnnotationPoint.id = List.range' st.ctr 1 := by
      simp
    exact idsOK_append_range st.points _ st.ctr 1 hnodup hlt hids
  | preset name =>
    show IdsOK (addPreset W H st name)
    unfold addPreset
    by_cases hl : st.landmarks = []
    · rw [if_pos hl]
      refine idsOK_append_range st.points _ st.ctr 4 hnodup hlt ?_
      simp only [List.map_cons, List.map_nil, List.range'_succ, List.range'_zero]
    · rw [if_neg hl]
      obtain ⟨h1, h2⟩ :=
        presetLoop_spec st.landmarks W H (presetTemplates name).1 [] st.ctr
      rw [presetTemplates_length] at h1 h2
      have := idsOK_append_range st.points
        (presetLoop st.landmarks W H (presetTemplates name).1 [] st.ctr).1
        st.ctr 4 hnodup hlt (by simpa using h1)
      refine ⟨this.1, ?_⟩
      intro p hp
      have := this.2 p hp
      simp only [h2]
      omega
  | detect o c =>
    show IdsOK (stepDetect st o c)
    cases o with
    | fail => exact ⟨hnodup, hlt⟩
    | extractThrow => exact ⟨hnodup, hlt⟩
    | empty =>
      by_cases hc : c = true
      · simp only [stepDetect, if_pos hc]
        exact ⟨hnodup, hlt⟩
      · simp only [stepDetect, if_neg hc]
        exact ⟨hnodup, hlt⟩
    | mesh m =>
      by_cases hc : c = true
      · simp only [stepDetect, if_pos hc]
        exact ⟨hnodup, hlt⟩
      · by_cases hcond : st.points = [] ∧ m ≠ []
        · have hstep : stepDetect st (.mesh m) c
              = { landmarks := m, points := (autoPoints lipsIndices m st.ctr).1,
                  ctr := (autoPoints lipsIndices m st.ctr).2 } := by
            simp [stepDetect, hc, hcond]
          rw [hstep]
          obtain ⟨_, hid, _, hctr⟩ := autoPoints_spec lipsIndices m st.ctr
          refine ⟨?_, ?_⟩
          · show ((autoPoints lipsIndices m st.ctr).1.map AnnotationPoint.id).Nodup
            rw [hid]
            exact List.nodup_range' _ _
          · intro p hp
            have hmem : p.id ∈ (autoPoints lipsIndices m st.ctr).1.map
                AnnotationPoint.id := List.mem_map_of_mem _ hp
            rw [hid] at hmem
            obtain ⟨i, hi, he⟩ := List.mem_range'.mp hmem
            show p.id < (autoPoints lipsIndices m st.ctr).2
            rw [hctr]
            omega
        · have hstep : stepDetect st (.mesh m) c = { st with landmarks := m } := by
            simp [stepDetect, hc, hcond]
          rw [hstep]
          exact ⟨hnodup, hlt⟩
  | dragEnd pid nx ny =>
    exact idsOK_of_map_id_eq st _ ⟨hnodup, hlt⟩
      (updatePointMeta_map_id pid _ st.points) (le_refl _)
  | editMeta pid u =>
    exact idsOK_of_map_id_eq st _ ⟨hnodup, hlt⟩
      (updatePointMeta_map_id pid u st.points) (le_refl _)
  | snapTo pid radius =>
    show IdsOK (snapPointToNearestLandmark st pid radius)
    rcases snap_cases st pid radius with hs | ⟨lm, hs⟩ <;> rw [hs]
    · exact ⟨hnodup, hlt⟩
    · exact idsOK_of_map_id_eq st _ ⟨hnodup, hlt⟩
        (updatePointMeta_map_id pid _ st.points) (le_refl _)
  | removeId pid =>
    refine ⟨?_, ?_⟩
    · have hsub : List.Sublist
          ((st.points.filter (fun p => p.id != pid)).map AnnotationPoint.id)
          (st.points.map AnnotationPoint.id) :=
        (List.filter_sublist st.points).map AnnotationPoint.id
      exact hnodup.sublist hsub
    · intro p hp
      exact hlt p (List.mem_of_mem_filter hp)
  | newFile =>
    exact ⟨List.nodup_nil, fun p hp => absurd hp (List.not_mem_nil p)⟩

/-- Claim C2: for every sequence of marker operations starting from the
    empty marker list (manual add, preset add, first-detection
    auto-population, drag update, product/dose edit, snap, remove,
    new-file reset), the resulting marker list has pairwise distinct
    identifiers, the nanoid assumption being realised by the counter
    model. -/
theorem C2_marker_ids_unique :
    ∀ (stageW stageH : ℚ) (ops : List Op),
      ((ops.foldl (step stageW stageH) initState).points.map
        AnnotationPoint.id).Nodup := by
  intro W H ops
  have hfold : ∀ (rest : List Op) (st : FState), IdsOK st →
      IdsOK (rest.foldl (step W H) st) := by
    intro rest
    induction rest with
    | nil => intro st h; exact h
    | cons op tail ih =>
      intro st h
      exact ih _ (step_preserves_idsOK W H st op h)
  have hinit : IdsOK initState := by
    refine ⟨List.nodup_nil, ?_⟩
    intro p hp
    simp [initState] at hp
  exact (hfold ops initState hinit).1

/-! ### samplesAlong totality and bounds (C10) -/

/-- The segment-location loop of samplesAlong: started strictly below t
    with enough total length ahead, it stops at a segment k within bounds,
    with accumulated length still below t and t reachable within segment k. -/
theorem walk_spec (t : ℚ) :
    ∀ (lens : List ℚ) (a0 : ℚ) (i0 : ℕ),
      a0 < t → t ≤ a0 + lens.sum →
      ∃ (k : ℕ) (v : ℚ), lens[k]? = some v
        ∧ (walk t lens a0 i0).1 = i0 + k
        ∧ (walk t lens a0 i0).2 < t
        ∧ t ≤ (walk t lens a0 i0).2 + v := by
  intro lens
  induction lens with
  | nil =>
    intro a0 i0 h1 h2
    rw [List.sum_nil, add_zero] at h2
    exact absurd h2 (not_le.mpr h1)
  | cons len rest ih =>
    intro a0 i0 h1 h2
    by_cases hc : a0 + len < t
    · have h2' : t ≤ (a0 + len) + rest.sum := by
        rw [List.sum_cons] at h2
        linarith
      obtain ⟨k, v, hk, hw1, hw2, hw3⟩ := ih (a0 + len) (i0 + 1) hc h2'
      have hunfold : walk t (len :: rest) a0 i0
          = walk t rest (a0 + len) (i0 + 1) := by
        simp [walk, hc]
      refine ⟨k + 1, v, by simpa using hk, ?_, ?_, ?_⟩
      · rw [hunfold, hw1]
        omega
      · rw [hunfold]
        exact hw2
      · rw [hunfold]
        exact hw3
    · have hunfold : walk t (len :: rest) a0 i0 = (i0, a0) := by
        simp [walk, hc]
      refine ⟨0, len, by simp, ?_, ?_, ?_⟩
      · rw [hunfold]
        simp
      · rw [hunfold]
        exact h1
      · rw [hunfold]
        exact le_of_not_lt hc

/-- Evaluation of the sampling-loop body once the located segment is known:
    the sample interpolates linearly between the endpoints of segment k. -/
theorem sampleAt_eq (len : Pt → Pt → ℚ) (pts : List Pt) (segLens : List ℚ)
    (total : ℚ) (n s k : ℕ) (ac : ℚ) (a b : Pt) (v : ℚ)
    (hw : walk (((s : ℚ) + 1 / 2) / (n : ℚ) * total) segLens 0 0 = (k, ac))
    (hklt : k < segLens.length)
    (ha : pts[k]? = some a) (hb : pts[k + 1]? = some b)
    (hv : segLens[k]? = some v) (hvne : v ≠ 0) :
    (sampleAt len pts segLens total n s).x
      = a.x + (b.x - a.x) * ((((s : ℚ) + 1 / 2) / (n : ℚ) * total - ac) / v)
    ∧ (sampleAt len pts segLens total n s).y
      = a.y + (b.y - a.y) * ((((s : ℚ) + 1 / 2) / (n : ℚ) * total - ac) / v) := by
  have hgoal : sampleAt len pts segLens total n s
      = ⟨a.x + (b.x - a.x) * ((((s : ℚ) + 1 / 2) / (n : ℚ) * total - ac) / v),
         a.y + (b.y - a.y) * ((((s : ℚ) + 1 / 2) / (n : ℚ) * total - ac) / v),
         -(b.y - a.y) / (if len a b = 0 then 1 else len a b),
         (b.x - a.x) / (if len a b = 0 then 1 else len a b)⟩ := by
    simp only [sampleAt, hw]
    rw [if_neg (not_le.mpr hklt)]
    simp only [List.getD_eq_getElem?_getD, ha, hb, hv, Option.getD_some]
    rw [if_neg hvne]
  rw [hgoal]
  exact ⟨rfl, rfl⟩

/-- All segment lengths are nonnegative when the length function is. -/
theorem zipWith_len_nonneg (len : Pt → Pt → ℚ) (hlen : ∀ a b, 0 ≤ len a b) :
    ∀ (l1 l2 : List Pt), ∀ q ∈ List.zipWith len l1 l2, 0 ≤ q := by
  intro l1
  induction l1 with
  | nil =>
    intro l2 q hq
    simp at hq
  | cons a l1 ih =>
    intro l2 q hq
    cases l2 with
    | nil => simp at hq
    | cons b l2 =>
      rw [List.zipWith_cons_cons] at hq
      rcases List.mem_cons.mp hq with h | h
      · rw [h]
        exact hlen a b
      · exact ih l2 q h

/-- The specification of samplesAlong asserted by claim C10: the empty list
    on degenerate input, else exactly n samples, each lying on one of the
    polyline segments (an in-bounds segment index k with both endpoint
    accesses defined and an interpolation parameter between 0 and 1). -/
def SamplesSpec (len : Pt → Pt → ℚ) (pts : List Pt) (n : ℕ) : Prop :=
  (pts.length < 2 → samplesAlong len pts n = [])
  ∧ ((List.zipWith len pts pts.tail).sum = 0 → samplesAlong len pts n = [])
  ∧ (2 ≤ pts.length → (List.zipWith len pts pts.tail).sum ≠ 0 →
      (samplesAlong len pts n).length = n
      ∧ ∀ smp ∈ samplesAlong len pts n, ∃ k : ℕ, k + 1 < pts.length
          ∧ ∃ (a b : Pt) (u : ℚ), pts[k]? = some a ∧ pts[k + 1]? = some b
              ∧ 0 ≤ u ∧ u ≤ 1
              ∧ smp.x = a.x + (b.x - a.x) * u
              ∧ smp.y = a.y + (b.y - a.y) * u)

/-- Claim C10: samplesAlong is total and in-bounds for every nonnegative
    segment-length function (Math.hypot is nonnegative) and every n at
    least 1: it returns the empty list when the polyline has fewer than two
    points or zero total length, otherwise exactly n samples, each sample
    produced from an in-bounds segment (so the source access pts[segIdx + 1]
    always exists) and lying on that segment. -/
theorem C10_samplesAlong_safe :
    ∀ (len : Pt → Pt → ℚ) (pts : List Pt) (n : ℕ),
      (∀ a b, 0 ≤ len a b) → 1 ≤ n → SamplesSpec len pts n := by
  intro len pts n hlen hn
  refine ⟨?_, ?_, ?_⟩
  · intro h
    unfold samplesAlong
    rw [if_pos h]
  · intro h
    unfold samplesAlong
    by_cases h2 : pts.length < 2
    · rw [if_pos h2]
    · rw [if_neg h2]
      simp only [h, if_true]
  · intro hlen2 hsum
    have hs : samplesAlong len pts n
        = (List.range n).map (fun s => sampleAt len pts
            (List.zipWith len pts pts.tail)
            ((List.zipWith len pts pts.tail).sum) n s) := by
      unfold samplesAlong
      rw [if_neg (not_lt.mpr hlen2), if_neg hsum]
    refine ⟨by rw [hs]; simp, ?_⟩
    intro smp hmem
    rw [hs] at hmem
    obtain ⟨s, hsrange, hsmp⟩ := List.mem_map.mp hmem
    have hslt : s < n := List.mem_range.mp hsrange
    have htotpos : 0 < (List.zipWith len pts pts.tail).sum := by
      have hnn : 0 ≤ (List.zipWith len pts pts.tail).sum :=
        List.sum_nonneg (zipWith_len_nonneg len hlen pts pts.tail)
      exact lt_of_le_of_ne hnn (Ne.symm hsum)
    have hnpos : (0 : ℚ) < (n : ℚ) := by
      exact_mod_cast hn
    have hfracpos : (0 : ℚ) < ((s : ℚ) + 1 / 2) / (n : ℚ) :=
      div_pos (by positivity) hnpos
    have hfraclt : ((s : ℚ) + 1 / 2) / (n : ℚ) < 1 := by
      rw [div_lt_one hnpos]
      have : (s : ℚ) + 1 ≤ (n : ℚ) := by
        exact_mod_cast hslt
      linarith
    have ht0 : 0 < ((s : ℚ) + 1 / 2) / (n : ℚ)
        * (List.zipWith len pts pts.tail).sum := mul_pos hfracpos htotpos
    have httot : ((s : ℚ) + 1 / 2) / (n : ℚ)
        * (List.zipWith len pts pts.tail).sum
        < (List.zipWith len pts pts.tail).sum := by
      calc ((s : ℚ) + 1 / 2) / (n : ℚ) * (List.zipWith len pts pts.tail).sum
          < 1 * (List.zipWith len pts pts.tail).sum :=
            mul_lt_mul_of_pos_right hfraclt htotpos
        _ = (List.zipWith len pts pts.tail).sum := one_mul _
    obtain ⟨k, v, hk, hw1, hw2, hw3⟩ := walk_spec
      (((s : ℚ) + 1 / 2) / (n : ℚ) * (List.zipWith len pts pts.tail).sum)
      (List.zipWith len pts pts.tail) 0 0 ht0 (by rw [zero_add]; exact le_of_lt httot)
    have hklt : k < (List.zipWith len pts pts.tail).length :=
      (List.getElem?_eq_some_iff.mp hk).1
    have hseglen : (List.zipWith len pts pts.tail).length = pts.length - 1 := by
      rw [List.length_zipWith, List.length_tail]
      omega
    have hk1 : k + 1 < pts.length := by omega
    have hkpts : k < pts.length := by omega
    have ha : pts[k]? = some (pts.get ⟨k, hkpts⟩) := List.getElem?_eq_getElem hkpts
    have hb : pts[k + 1]? = some (pts.get ⟨k + 1, hk1⟩) := List.getElem?_eq_getElem hk1
    have hvv : v = len (pts.get ⟨k, hkpts⟩) (pts.get ⟨k + 1, hk1⟩) := by
      have hz : (List.zipWith len pts pts.tail)[k]?
          = some (len (pts.get ⟨k, hkpts⟩) (pts.get ⟨k + 1, hk1⟩)) := by
        rw [List.getElem?_zipWith, ha, List.getElem?_tail, hb]
      rw [hz] at hk
      injection hk with hk
      exact hk.symm
    have hvpos : 0 < v := by
      have := hlen (pts.get ⟨k, hkpts⟩) (pts.get ⟨k + 1, hk1⟩)
      linarith [hw2, hw3]
    have hwpair : walk (((s : ℚ) + 1 / 2) / (n : ℚ)
        * (List.zipWith len pts pts.tail).sum)
        (List.zipWith len pts pts.tail) 0 0
        = (k, (walk (((s : ℚ) + 1 / 2) / (n : ℚ)
            * (List.zipWith len pts pts.tail).sum)
            (List.zipWith len pts pts.tail) 0 0).2) := by
      rw [Prod.ext_iff]
      refine ⟨?_, rfl⟩
      rw [hw1]
      omega
    obtain ⟨hx, hy⟩ := sampleAt_eq len pts (List.zipWith len pts pts.tail)
      ((List.zipWith len pts pts.tail).sum) n s k _
      (pts.get ⟨k, hkpts⟩) (pts.get ⟨k + 1, hk1⟩) v hwpair hklt ha hb
      (by rw [hvv] at hk ⊢; exact hk) (ne_of_gt hvpos)
    refine ⟨k, hk1, pts.get ⟨k, hkpts⟩, pts.get ⟨k + 1, hk1⟩,
      (((s : ℚ) + 1 / 2) / (n : ℚ) * (List.zipWith len pts pts.tail).sum
        - (walk (((s : ℚ) + 1 / 2) / (n : ℚ)
            * (List.zipWith len pts pts.tail).sum)
            (List.zipWith len pts pts.tail) 0 0).2) / v,
      ha, hb, ?_, ?_, ?_, ?_⟩
    · apply div_nonneg _ (le_of_lt hvpos)
      linarith [hw2]
    · rw [div_le_one hvpos]
      linarith [hw3]
    · rw [← hsmp]
      exact hx
    · rw [← hsmp]
      exact hy

/-- Witness for C10: the squared-distance length function on a concrete
    three-point polyline with two samples. -/
theorem C10_samplesAlong_safe_witness :
    SamplesSpec (fun a b => (b.x - a.x) ^ 2 + (b.y - a.y) ^ 2)
      [⟨0, 0⟩, ⟨3, 0⟩, ⟨3, 4⟩] 2 :=
  C10_samplesAlong_safe (fun a b => (b.x - a.x) ^ 2 + (b.y - a.y) ^ 2)
    [⟨0, 0⟩, ⟨3, 0⟩, ⟨3, 4⟩] 2 (fun a b => by positivity) (by norm_num)

end FaceBalance
